import Mathlib

/-!
Verification of the factory inventory tracker (src/inventory_app.py).

The ledger is modelled as a list of transaction rows; the two tabular files
of the application become Lean lists, pandas dataframes become lists of a
structure, and the numeric columns become `Nat` (dates) and `Int`
(quantities).  Cells that are missing in the csv (pandas NaN) are modelled
as the empty string / zero, matching the coercions the application performs
on load (dates dropped when unparseable, quantities coerced to 0).
-/

namespace Inventory

/-- Character-list test: the first list is an initial segment of the second.
Models Python string method startswith over code points. -/
def charListPre : List Char → List Char → Bool
  | [], _ => true
  | _ :: _, [] => false
  | a :: as, b :: bs => a == b && charListPre as bs

/-- The string s starts with the string p (Python s.startswith(p)). -/
def strStarts (s p : String) : Bool :=
  charListPre p.toList s.toList

/-- The string pat occurs somewhere inside s (Python pat in s). -/
def containsSub (s pat : String) : Bool :=
  (List.range (s.toList.length + 1)).any
    (fun i => charListPre pat.toList (s.toList.drop i))

/-- Strict lexicographic order on code points, as pandas sorts strings. -/
def charListLt : List Char → List Char → Bool
  | [], [] => false
  | [], _ :: _ => true
  | _ :: _, [] => false
  | a :: as, b :: bs => a.val < b.val || (a == b && charListLt as bs)

/-- Strict order on strings by code points. -/
def strLt (a b : String) : Bool :=
  charListLt a.toList b.toList

/-- One row of the transaction ledger (csv columns Date, Type, ID,
Party_Name, Item_Name, Quantity, Unit, Batch_ID, Ball_Mill_ID, Status,
Notes).  Missing csv cells are the defaults. -/
structure Row where
  date : Nat := 0
  ttype : String := ""
  id : String := ""
  partyName : String := ""
  itemName : String := ""
  quantity : Int := 0
  unit : String := ""
  batchId : String := ""
  millId : String := ""
  status : String := ""
  notes : String := ""
deriving DecidableEq, Repr

/-- The (Date, ID) sort key comparison used by sort_values(by=[Date, ID]). -/
def rowKeyLt (a b : Row) : Bool :=
  a.date < b.date || (a.date == b.date && strLt a.id b.id)

/-- Insert a row into a list sorted by `rowKeyLt`, before any row with an
equal key, so that the overall sort is stable. -/
def insertSorted (r : Row) : List Row → List Row
  | [] => [r]
  | x :: xs => if rowKeyLt x r then x :: insertSorted r xs else r :: x :: xs

/-- Stable sort of ledger rows by (Date, ID) ascending. -/
def sortRows (l : List Row) : List Row :=
  l.foldr insertSorted []

/-- get_next_id of the source, over the ID column of the ledger:
count the identifiers that start with the given type marker; the result is
the marker, a dash, and count+1 rendered with %03d. -/
def get_next_id (ids : List String) (p : String) : String :=
  let typeRows := ids.filter (fun s => strStarts s p)
  if typeRows.isEmpty then p ++ "-001"
  else p ++ "-" ++ pad3 (typeRows.length + 1)
where
  /-- Python format {n:03d}: decimal, left padded with zeros to width 3. -/
  pad3 (n : Nat) : String :=
    if n < 10 then "00" ++ toString n
    else if n < 100 then "0" ++ toString n
    else toString n

/-- The sequence number the generator will emit next (count of matching
identifiers plus one). -/
def nextSeqNum (ids : List String) (p : String) : Nat :=
  (ids.filter (fun s => strStarts s p)).length + 1

/-- update_database_from_editor of the source: index both frames by ID and
overwrite the fields of every original row whose ID appears in the edited
subset; rows whose ID is absent from the subset are unchanged, and the ID
itself, being the index, is kept. -/
def update_database_from_editor (df edited : List Row) : List Row :=
  df.map (fun r =>
    match edited.find? (fun s => s.id == r.id) with
    | some s => { s with id := r.id }
    | none => r)

/-- A list with an explicit position index attached to every element,
modelling a dataframe with its integer index labels. -/
def withIdx : Nat → List α → List (Nat × α)
  | _, [] => []
  | i, x :: xs => (i, x) :: withIdx (i + 1) xs

/-- A content line displayed for an open mill: (Date, Item_Name,
absolute Quantity, Unit). -/
def displayOf (r : Row) : Nat × String × Int × String :=
  (r.date, r.itemName, |r.quantity|, r.unit)

/-- The rows of the ledger carrying one of the configured mill names,
sorted by (Date, ID) ascending, as the first two lines of
get_mill_status build mill_df. -/
def sortedMillDf (df : List Row) (allMills : List String) : List Row :=
  sortRows (df.filter (fun r => allMills.contains r.millId))

/-- The rows of the sorted mill frame belonging to one mill. -/
def entriesFor (millDf : List Row) (m : String) : List Row :=
  millDf.filter (fun r => r.millId == m)

/-- The open test of get_mill_status: there is a last entry, its Type does
not contain the word Production, and its Status is not Completed. -/
def isOpenEntries (entries : List Row) : Bool :=
  match entries.getLast? with
  | none => false
  | some last => !containsSub last.ttype "Production" && !(last.status == "Completed")

/-- The contents view built for an open mill: the rows of Type Mill_Start
are selected together with their index labels, the label of the last one is
taken (starts.index[-1]), and the slice of the entries from that label to
the end (loc[last_start_idx:]) is displayed with absolute quantities.
None when the mill has no Mill_Start row. -/
def contentsFor (entries : List Row) : Option (List (Nat × String × Int × String)) :=
  let starts := (withIdx 0 entries).filter (fun q => q.2.ttype == "Mill_Start")
  match starts.getLast? with
  | none => none
  | some (k, _) => some ((entries.drop k).map displayOf)

/-- The result of get_mill_status: the open mills, the available mills, and
the contents mapping for open mills. -/
structure MillStatus where
  openMills : List String
  availableMills : List String
  millContents : List (String × List (Nat × String × Int × String))
deriving DecidableEq, Repr

/-- get_mill_status of the source.  The loop over all_mills appends a mill
to open_mills when its last sorted entry is neither a Production type nor
Completed, records its contents when it has a Mill_Start row, and the
available mills are all configured mills not collected as open. -/
def get_mill_status (df : List Row) (allMills : List String) : MillStatus :=
  let millDf := sortedMillDf df allMills
  let opens := allMills.filter (fun m => isOpenEntries (entriesFor millDf m))
  { openMills := opens
    availableMills := allMills.filter (fun m => !opens.contains m)
    millContents := opens.filterMap (fun m =>
      (contentsFor (entriesFor millDf m)).map (fun c => (m, c))) }

/-- The closing stock computation of the dashboard: keep the rows dated on
or before the as-of date, then group by Item_Name (keys in first-seen
order) and sum the quantities of each group. -/
def closing_stock (df : List Row) (asOf : Nat) : List (String × Int) :=
  let filtered := df.filter (fun r => decide (r.date ≤ asOf))
  ((filtered.map Row.itemName).dedup).map (fun i =>
    (i, ((filtered.filter (fun r => r.itemName == i)).map Row.quantity).sum))

/-- One consumption row of the batch entry screen: negative quantity, unit
Kg/L, identifier batch_id-IN-index. -/
def batchConsRow (d : Nat) (bid : String) (idx : Nat) (item : String) (q : Int) : Row :=
  { date := d, ttype := "Batch_Consumption", id := bid ++ "-IN-" ++ toString idx,
    itemName := item, quantity := -q, unit := "Kg/L", batchId := bid }

/-- The production row of the batch entry screen: positive quantity of
UF Lumps (Batches), identifier batch_id-OUT. -/
def batchProdRow (d : Nat) (bid : String) (made : Int) : Row :=
  { date := d, ttype := "Batch_Production", id := bid ++ "-OUT",
    itemName := "UF Lumps (Batches)", quantity := made, unit := "Batches",
    batchId := bid }

/-- Save Batch of the source: when the produced count is positive, one
consumption row for every input row (indexed as in the editor) whose
quantity is positive, followed by the single production row; otherwise
nothing is appended.  The inputs are (Item, Quantity) editor lines. -/
def saveBatch (d : Nat) (bid : String) (inputs : List (String × Int))
    (batchesMade : Int) : List Row :=
  if batchesMade > 0 then
    (withIdx 0 inputs).filterMap (fun q =>
      if q.2.2 > 0 then some (batchConsRow d bid q.1 q.2.1 q.2.2) else none)
    ++ [batchProdRow d bid batchesMade]
  else []

/-- The ledger row appended when a new Material or Grade master entry
carries a positive opening quantity. -/
def openingRow (df : List Row) (mtype mname : String) (q : Int) (today : Nat) : Row :=
  { date := today, ttype := "Opening Stock", id := get_next_id (df.map Row.id) "OPN",
    itemName := mname, quantity := q,
    unit := if mtype == "Grade" then "Bags" else "Kg",
    status := "Stock In", notes := "Initial Balance" }

/-- The names already present in one category of the master registry. -/
def masterNames (masters : List (String × String)) (mtype : String) : List String :=
  (masters.filter (fun p => p.1 == mtype)).map Prod.snd

/-- The Add form of the Master Data screen.  The masters registry is a list
of (Type, Name) pairs.  The add succeeds when the name is nonempty and not
already present in its category; it appends the (Type, Name) pair, and,
when the category is Material or Grade (the only ones whose form shows an
opening quantity) and that quantity is positive, also appends one opening
stock ledger row.  On failure (Duplicate Name error) nothing changes,
rendered as none. -/
def addMaster (masters : List (String × String)) (df : List Row)
    (mtype mname : String) (openingQty : Int) (today : Nat) :
    Option (List (String × String) × List Row) :=
  let effQty := if mtype == "Material" || mtype == "Grade" then openingQty else 0
  if mname != "" && !(masterNames masters mtype).contains mname then
    some (masters ++ [(mtype, mname)],
      if effQty > 0 then df ++ [openingRow df mtype mname effQty today] else df)
  else none

/-- The single row recorded by the Purchase screen: positive quantity,
status In Stock. -/
def purchaseRow (d : Nat) (newId supplier item : String) (q : Int)
    (u notes : String) : Row :=
  { date := d, ttype := "Purchase", id := newId, partyName := supplier,
    itemName := item, quantity := q, unit := u, status := "In Stock",
    notes := notes }

/-- The single row recorded by the Sales screen: the entered quantity is
stored negated. -/
def salesRow (d : Nat) (newId cust item : String) (q : Int) (u : String) : Row :=
  { date := d, ttype := "Sales", id := newId, partyName := cust,
    itemName := item, quantity := -q, unit := u }

/-- Modelled from the spec (for comparison with contentsFor): the suffix of
the mill entries beginning at the most recent Mill_Start row — none when no
row is a Mill_Start. -/
def suffixFromLastStart : List Row → Option (List Row)
  | [] => none
  | r :: rs =>
    match suffixFromLastStart rs with
    | some tail => some tail
    | none => if r.ttype == "Mill_Start" then some (r :: rs) else none

/-! ### Concrete fixtures -/

/-- The five configured mill slots of main. -/
def mills5 : List String :=
  ["Ball Mill 1", "Ball Mill 2", "Ball Mill 3", "Ball Mill 4", "Ball Mill 5"]

/-- A ledger row of a production type other than Mill_Production carrying a
mill identifier and no Completed status. -/
def potRowFx : Row :=
  { date := 1, ttype := "Pot_Production", id := "POT-001-OUT",
    itemName := "Grade A", quantity := 7, unit := "Bags",
    millId := "Ball Mill 1" }

/-- A Mill_Start row loading five batches into Ball Mill 1. -/
def startRowFx : Row :=
  { date := 1, ttype := "Mill_Start", id := "MIL-100",
    itemName := "UF Lumps (Batches)", quantity := -5, unit := "Batches",
    millId := "Ball Mill 1", status := "In Progress" }

/-- A Mill_Consumption row adding two Kg of a material to Ball Mill 1. -/
def consRowFx : Row :=
  { date := 2, ttype := "Mill_Consumption", id := "ADD-200",
    itemName := "Material A", quantity := -2, unit := "Kg",
    millId := "Ball Mill 1" }

/-- A purchase of 100 Kg of Urea dated day 1. -/
def purchaseFx : Row :=
  purchaseRow 1 "PUR-001" "Acme" "Urea" 100 "Kg" ""

/-- A sale of 100 Kg of Urea dated day 2 (stored as quantity -100). -/
def salesFx : Row :=
  salesRow 2 "SAL-001" "Best Co" "Urea" 100 "Kg"

/-- A purchase row dated later than the as-of date 5 used in witnesses. -/
def lateRowFx : Row :=
  purchaseRow 9 "PUR-002" "Acme" "Urea" 50 "Kg" ""

/-- An edited copy of the purchase row carrying the same identifier but a
changed quantity. -/
def editedFx : Row :=
  { purchaseFx with quantity := 77 }

/-! ### Helper lemmas about the mill contents computation -/

/-- Shifting the starting index label of a dataframe shifts the label of
the last Mill_Start row and nothing else. -/
theorem startFilter_shift (l : List Row) (i : Nat) :
    ((withIdx i l).filter (fun q => q.2.ttype == "Mill_Start")).getLast? =
      Option.map (fun q => (q.1 + i, q.2))
        (((withIdx 0 l).filter (fun q => q.2.ttype == "Mill_Start")).getLast?) := by
  induction l generalizing i with
  | nil => rfl
  | cons x xs ih =>
    have e1 : withIdx i (x :: xs) = (i, x) :: withIdx (i + 1) xs := rfl
    have e0 : withIdx 0 (x :: xs) = (0, x) :: withIdx 1 xs := rfl
    rw [e1, e0, List.filter_cons, List.filter_cons]
    by_cases hx : (x.ttype == "Mill_Start") = true
    · rw [if_pos hx, if_pos hx, List.getLast?_cons, List.getLast?_cons,
        ih (i + 1), ih 1]
      rcases h : ((withIdx 0 xs).filter (fun q => q.2.ttype == "Mill_Start")).getLast? with
        _ | ⟨k, y⟩ <;> rw [h]
      · simp
      · simp only [Option.map_some', Option.getD_some, Option.some.injEq, Prod.mk.injEq]
        refine ⟨by omega, trivial⟩
    · rw [if_neg hx, if_neg hx, ih (i + 1), ih 1]
      rcases h : ((withIdx 0 xs).filter (fun q => q.2.ttype == "Mill_Start")).getLast? with
        _ | ⟨k, y⟩ <;> rw [h]
      · rfl
      · simp only [Option.map_some', Option.some.injEq, Prod.mk.injEq]
        refine ⟨by omega, trivial⟩

/-- Unfolding step of contentsFor over a leading row. -/
theorem contentsFor_cons (r : Row) (rs : List Row) :
    contentsFor (r :: rs) =
      match contentsFor rs with
      | some c => some c
      | none =>
        if r.ttype == "Mill_Start" then some ((r :: rs).map displayOf) else none := by
  have e0 : withIdx 0 (r :: rs) = (0, r) :: withIdx 1 rs := rfl
  simp only [contentsFor, e0, List.filter_cons]
  by_cases hr : (r.ttype == "Mill_Start") = true
  · rw [if_pos hr, List.getLast?_cons, startFilter_shift rs 1]
    rcases h : ((withIdx 0 rs).filter (fun q => q.2.ttype == "Mill_Start")).getLast? with
      _ | ⟨k, y⟩ <;> rw [h]
    · simp [hr]
    · simp [List.drop_succ_cons]
  · rw [if_neg hr, startFilter_shift rs 1]
    rcases h : ((withIdx 0 rs).filter (fun q => q.2.ttype == "Mill_Start")).getLast? with
      _ | ⟨k, y⟩ <;> rw [h]
    · simp [hr]
    · simp [List.drop_succ_cons]

/-- The code computation of an open mill contents view agrees with the
spec-modelled one: display the suffix from the most recent Mill_Start. -/
theorem contentsFor_eq_spec (entries : List Row) :
    contentsFor entries = (suffixFromLastStart entries).map (List.map displayOf) := by
  induction entries with
  | nil => rfl
  | cons r rs ih =>
    rw [contentsFor_cons, suffixFromLastStart]
    rcases h : suffixFromLastStart rs with _ | tail
    · rw [h] at ih
      simp only [ih]
      by_cases hr : (r.ttype == "Mill_Start") = true
      · simp [hr]
      · simp [hr]
    · rw [h] at ih
      simp [ih]

/-- The spec-modelled suffix is none exactly when no row is a Mill_Start. -/
theorem suffix_eq_none_iff (l : List Row) :
    suffixFromLastStart l = none ↔ ∀ r ∈ l, r.ttype ≠ "Mill_Start" := by
  induction l with
  | nil => simp [suffixFromLastStart]
  | cons x xs ih =>
    simp only [suffixFromLastStart]
    rcases h : suffixFromLastStart xs with _ | tail
    · by_cases hx : (x.ttype == "Mill_Start") = true
      · simp only [hx, if_true]
        constructor
        · intro hc; simp at hc
        · intro hall
          exact absurd (beq_iff_eq.mp hx) (hall x (by simp))
      · simp only [hx, Bool.false_eq_true, if_false, true_iff]
        intro r hr
        rcases List.mem_cons.mp hr with h1 | h1
        · subst h1
          intro hc
          rw [hc] at hx
          simp at hx
        · exact (ih.mp h) r h1
    · constructor
      · intro hc; simp at hc
      · intro hall
        have h2 : suffixFromLastStart xs = none :=
          ih.mpr (fun r hr => hall r (List.mem_cons_of_mem x hr))
        rw [h2] at h
        simp at h

/-- When the spec-modelled suffix exists it splits the entries at the most
recent Mill_Start: the suffix begins with a Mill_Start row and no later
row is a Mill_Start. -/
theorem suffix_eq_some (l res : List Row) (h : suffixFromLastStart l = some res) :
    ∃ pre s suf, l = pre ++ s :: suf ∧ res = s :: suf ∧ s.ttype = "Mill_Start"
      ∧ ∀ r ∈ suf, r.ttype ≠ "Mill_Start" := by
  induction l generalizing res with
  | nil => simp [suffixFromLastStart] at h
  | cons x xs ih =>
    simp only [suffixFromLastStart] at h
    rcases h2 : suffixFromLastStart xs with _ | tail
    · rw [h2] at h
      simp only at h
      by_cases hx : (x.ttype == "Mill_Start") = true
      · simp only [hx, if_true, Option.some.injEq] at h
        exact ⟨[], x, xs, by simp, h.symm, beq_iff_eq.mp hx,
          (suffix_eq_none_iff xs).mp h2⟩
      · simp [hx] at h
    · rw [h2] at h
      simp only [Option.some.injEq] at h
      subst h
      rcases ih tail h2 with ⟨pre, s, suf, hsplit, hres, hs, hnone⟩
      exact ⟨x :: pre, s, suf, by simp [hsplit], hres, hs, hnone⟩

/-! ### Helper lemmas about association-list lookups -/

/-- Looking up a mill that is in the key list of the contents association
list finds the contents computed for it. -/
theorem lookup_contents_some {β : Type} (g : String → Option β) (l : List String)
    (m : String) (c : β) (hm : m ∈ l) (hg : g m = some c) :
    List.lookup m (l.filterMap (fun x => (g x).map (fun y => (x, y)))) = some c := by
  induction l with
  | nil => cases hm
  | cons x xs ih =>
    rw [List.filterMap_cons]
    by_cases hx : x = m
    · subst hx
      rw [hg]
      simp [List.lookup]
    · have hm2 : m ∈ xs := by
        rcases List.mem_cons.mp hm with h1 | h1
        · exact absurd h1.symm hx
        · exact h1
      rcases hgx : g x with _ | y
      · exact ih hm2
      · have hbeq : (m == x) = false := by
          simpa [beq_eq_false_iff_ne] using Ne.symm hx
        simp only [Option.map_some', List.lookup, hbeq]
        exact ih hm2

/-- Looking up a mill that is not a key of the contents association list
yields none. -/
theorem lookup_contents_none {β : Type} (g : String → Option β) (l : List String)
    (m : String) (hm : m ∉ l) :
    List.lookup m (l.filterMap (fun x => (g x).map (fun y => (x, y)))) = none := by
  induction l with
  | nil => rfl
  | cons x xs ih =>
    have hx : x ≠ m := fun h => hm (h ▸ List.mem_cons_self x xs)
    have hm2 : m ∉ xs := fun h => hm (List.mem_cons_of_mem x h)
    rw [List.filterMap_cons]
    rcases hgx : g x with _ | y
    · exact ih hm2
    · have hbeq : (m == x) = false := by
        simpa [beq_eq_false_iff_ne] using Ne.symm hx
      simp only [Option.map_some', List.lookup, hbeq]
      exact ih hm2

/-- Looking up a key of a keyed map of values finds its value. -/
theorem lookup_keyed_map (g : String → Int) (l : List String) (a : String)
    (ha : a ∈ l) :
    List.lookup a (l.map (fun i => (i, g i))) = some (g a) := by
  induction l with
  | nil => cases ha
  | cons x xs ih =>
    rw [List.map_cons]
    by_cases hx : x = a
    · subst hx
      simp [List.lookup]
    · have hbeq : (a == x) = false := by
        simpa [beq_eq_false_iff_ne] using Ne.symm hx
      simp only [List.lookup, hbeq]
      refine ih ?_
      rcases List.mem_cons.mp ha with h1 | h1
      · exact absurd h1.symm hx
      · exact h1

/-! ### Helper lemmas about the batch entry rows -/

/-- The consumption rows built by the batch entry loop list, in order, the
positively entered (Item, Quantity) lines, with the quantity negated. -/
theorem batch_rows_map (d : Nat) (bid : String) (inputs : List (String × Int)) (i : Nat) :
    ((withIdx i inputs).filterMap (fun q =>
        if q.2.2 > 0 then some (batchConsRow d bid q.1 q.2.1 q.2.2) else none)).map
      (fun r => (r.itemName, -r.quantity))
      = inputs.filter (fun q => decide (0 < q.2)) := by
  induction inputs generalizing i with
  | nil => rfl
  | cons x xs ih =>
    obtain ⟨item, qty⟩ := x
    rw [show withIdx i ((item, qty) :: xs) = (i, (item, qty)) :: withIdx (i + 1) xs
      from rfl, List.filterMap_cons, List.filter_cons]
    by_cases hq : (0 : Int) < qty
    · rw [if_pos hq, if_pos (by simpa using hq), List.map_cons, ih (i + 1)]
      simp [batchConsRow]
    · rw [if_neg hq, if_neg (by simpa using hq)]
      exact ih (i + 1)

/-- Every consumption row built by the batch entry loop is a negative
Batch_Consumption row tagged with the batch identifier. -/
theorem batch_rows_props (d : Nat) (bid : String) (inputs : List (String × Int)) (i : Nat) :
    ∀ r ∈ (withIdx i inputs).filterMap (fun q =>
        if q.2.2 > 0 then some (batchConsRow d bid q.1 q.2.1 q.2.2) else none),
      r.ttype = "Batch_Consumption" ∧ r.quantity < 0 ∧ r.batchId = bid := by
  induction inputs generalizing i with
  | nil =>
    intro r hr
    cases hr
  | cons x xs ih =>
    obtain ⟨item, qty⟩ := x
    intro r hr
    rw [show withIdx i ((item, qty) :: xs) = (i, (item, qty)) :: withIdx (i + 1) xs
      from rfl, List.filterMap_cons] at hr
    by_cases hq : (0 : Int) < qty
    · rw [if_pos hq] at hr
      rcases List.mem_cons.mp hr with h1 | h1
      · subst h1
        refine ⟨rfl, ?_, rfl⟩
        show -qty < 0
        omega
      · exact ih (i + 1) r h1
    · rw [if_neg hq] at hr
      exact ih (i + 1) r hr

/-- Membership of the contains test, stated on the false side. -/
theorem contains_eq_false_iff (l : List String) (a : String) :
    l.contains a = false ↔ a ∉ l := by
  simp [List.elem_iff]

/-- A mill is listed open exactly when it is configured and its entries
pass the open test. -/
theorem mem_openMills_iff (df : List Row) (mills : List String) (x : String) :
    x ∈ (get_mill_status df mills).openMills ↔
      x ∈ mills ∧ isOpenEntries (entriesFor (sortedMillDf df mills) x) = true := by
  simp [get_mill_status, List.mem_filter]

/-- A mill is listed available exactly when it is configured and not listed
open. -/
theorem mem_availableMills_iff (df : List Row) (mills : List String) (x : String) :
    x ∈ (get_mill_status df mills).availableMills ↔
      x ∈ mills ∧ x ∉ (get_mill_status df mills).openMills := by
  simp only [get_mill_status, List.mem_filter, Bool.not_eq_true']
  rw [contains_eq_false_iff]
  simp only [List.mem_filter]

/-! ### Claim theorems -/

/-- C1, amended: the source tests whether the word Production occurs inside
the last row's Type (so any production-type row frees the mill), not
whether the Type is exactly Mill_Production.  For every ledger and every
configured mill with at least one row, the mill is Available exactly when
the chronologically last row for it (rows sorted by (date, id) ascending)
has a Type containing Production or carries status Completed, and Open
otherwise; the Open and Available lists are disjoint and together contain
every configured mill. -/
theorem millAvailableIffLastFrees (df : List Row) (mills : List String)
    (m : String) (last : Row) (hm : m ∈ mills)
    (hl : (entriesFor (sortedMillDf df mills) m).getLast? = some last) :
    (m ∈ (get_mill_status df mills).availableMills ↔
      (containsSub last.ttype "Production" = true ∨ last.status = "Completed"))
    ∧ (∀ x, ¬(x ∈ (get_mill_status df mills).openMills
        ∧ x ∈ (get_mill_status df mills).availableMills))
    ∧ (∀ x ∈ mills, x ∈ (get_mill_status df mills).openMills
        ∨ x ∈ (get_mill_status df mills).availableMills) := by
  have hopen : isOpenEntries (entriesFor (sortedMillDf df mills) m) =
      (!containsSub last.ttype "Production" && !(last.status == "Completed")) := by
    simp only [isOpenEntries, hl]
  refine ⟨?_, ?_, ?_⟩
  · rw [mem_availableMills_iff, mem_openMills_iff, hopen]
    simp only [hm, true_and, Bool.and_eq_true, Bool.not_eq_true',
      beq_eq_false_iff_ne]
    constructor
    · intro h
      by_cases hc : containsSub last.ttype "Production" = true
      · exact Or.inl hc
      · right
        by_contra hs
        exact h ⟨by simpa using hc, hs⟩
    · rintro (hc | hs) ⟨h1, h2⟩
      · rw [hc] at h1
        cases h1
      · exact h2 hs
  · rintro x ⟨h1, h2⟩
    exact ((mem_availableMills_iff df mills x).mp h2).2 h1
  · intro x hx
    by_cases ho : x ∈ (get_mill_status df mills).openMills
    · exact Or.inl ho
    · exact Or.inr ((mem_availableMills_iff df mills x).mpr ⟨hx, ho⟩)

/-- C1 counterexample: the only row for Ball Mill 1 is a Pot_Production
row whose status is not Completed.  The claim classifies the mill Open
(its last row is not a Mill_Production row and carries no Completed
status), but get_mill_status lists it as Available. -/
theorem millClassificationClaimFalse :
    (entriesFor (sortedMillDf [potRowFx] mills5) "Ball Mill 1").getLast?
        = some potRowFx
    ∧ potRowFx.ttype ≠ "Mill_Production"
    ∧ potRowFx.status ≠ "Completed"
    ∧ "Ball Mill 1" ∈ (get_mill_status [potRowFx] mills5).availableMills
    ∧ "Ball Mill 1" ∉ (get_mill_status [potRowFx] mills5).openMills := by
  decide

/-- C1 witness: the amended classification evaluated on the Pot_Production
fixture ledger. -/
theorem millAvailableIffLastFrees_witness :
    (("Ball Mill 1" ∈ (get_mill_status [potRowFx] mills5).availableMills ↔
      (containsSub potRowFx.ttype "Production" = true
        ∨ potRowFx.status = "Completed")))
    ∧ (∀ x, ¬(x ∈ (get_mill_status [potRowFx] mills5).openMills
        ∧ x ∈ (get_mill_status [potRowFx] mills5).availableMills))
    ∧ (∀ x ∈ mills5, x ∈ (get_mill_status [potRowFx] mills5).openMills
        ∨ x ∈ (get_mill_status [potRowFx] mills5).availableMills) :=
  millAvailableIffLastFrees [potRowFx] mills5 "Ball Mill 1" potRowFx
    (by decide) (by decide)

/-- C2: for an open mill with at least one Mill_Start row, the derived
contents are exactly the rows from the most recent Mill_Start onward, in
(date, id) order, each with its quantity replaced by its absolute value. -/
theorem millContentsFromLastStart (df : List Row) (mills : List String)
    (m : String)
    (hopen : m ∈ (get_mill_status df mills).openMills)
    (hstart : ∃ r ∈ entriesFor (sortedMillDf df mills) m,
        r.ttype = "Mill_Start") :
    ∃ pre s suf,
      entriesFor (sortedMillDf df mills) m = pre ++ s :: suf
      ∧ s.ttype = "Mill_Start"
      ∧ (∀ r ∈ suf, r.ttype ≠ "Mill_Start")
      ∧ List.lookup m (get_mill_status df mills).millContents =
          some ((s :: suf).map
            (fun r => (r.date, r.itemName, |r.quantity|, r.unit))) := by
  have hnone : suffixFromLastStart (entriesFor (sortedMillDf df mills) m) ≠ none := by
    rw [Ne, suffix_eq_none_iff]
    push_neg
    rcases hstart with ⟨r, hr, hs⟩
    exact ⟨r, hr, hs⟩
  rcases hres : suffixFromLastStart (entriesFor (sortedMillDf df mills) m) with _ | res
  · exact absurd hres hnone
  rcases suffix_eq_some _ res hres with ⟨pre, s, suf, hsplit, hresval, hs, hnot⟩
  refine ⟨pre, s, suf, hsplit, hs, hnot, ?_⟩
  have hc : contentsFor (entriesFor (sortedMillDf df mills) m)
      = some (res.map displayOf) := by
    rw [contentsFor_eq_spec, hres]
    rfl
  have hrepr : (get_mill_status df mills).millContents =
      ((get_mill_status df mills).openMills).filterMap
        (fun x => (contentsFor (entriesFor (sortedMillDf df mills) x)).map
          (fun c => (x, c))) := rfl
  rw [hrepr, lookup_contents_some _ _ _ _ hopen hc, hresval]
  rfl

/-- C2 witness: a mill started with five batches and fed two Kg of a
material shows exactly those two rows, with absolute quantities 5 and 2. -/
theorem millContentsFromLastStart_witness :
    (∃ pre s suf,
      entriesFor (sortedMillDf [startRowFx, consRowFx] mills5) "Ball Mill 1"
          = pre ++ s :: suf
      ∧ s.ttype = "Mill_Start"
      ∧ (∀ r ∈ suf, r.ttype ≠ "Mill_Start")
      ∧ List.lookup "Ball Mill 1"
            (get_mill_status [startRowFx, consRowFx] mills5).millContents =
          some ((s :: suf).map
            (fun r => (r.date, r.itemName, |r.quantity|, r.unit))))
    ∧ List.lookup "Ball Mill 1"
        (get_mill_status [startRowFx, consRowFx] mills5).millContents =
      some [(1, "UF Lumps (Batches)", 5, "Batches"), (2, "Material A", 2, "Kg")] :=
  ⟨millContentsFromLastStart [startRowFx, consRowFx] mills5 "Ball Mill 1"
      (by decide) ⟨startRowFx, by decide, rfl⟩,
   by decide⟩

/-- C10: get_mill_status is a total function of the ledger, and a mill with
zero ledger rows is classified Available: it is listed available, not
listed open, and has no contents entry. -/
theorem millNoRowsAvailable (df : List Row) (mills : List String) (m : String)
    (hm : m ∈ mills)
    (hempty : entriesFor (sortedMillDf df mills) m = []) :
    m ∈ (get_mill_status df mills).availableMills
    ∧ m ∉ (get_mill_status df mills).openMills
    ∧ List.lookup m (get_mill_status df mills).millContents = none := by
  have hno : m ∉ (get_mill_status df mills).openMills := by
    rw [mem_openMills_iff]
    rintro ⟨-, hcond⟩
    rw [hempty] at hcond
    simp [isOpenEntries] at hcond
  have hrepr : (get_mill_status df mills).millContents =
      ((get_mill_status df mills).openMills).filterMap
        (fun x => (contentsFor (entriesFor (sortedMillDf df mills) x)).map
          (fun c => (x, c))) := rfl
  refine ⟨(mem_availableMills_iff df mills m).mpr ⟨hm, hno⟩, hno, ?_⟩
  rw [hrepr]
  exact lookup_contents_none _ _ _ hno

/-- C10 witness: the empty ledger leaves Ball Mill 1 available with no
contents entry. -/
theorem millNoRowsAvailable_witness :
    "Ball Mill 1" ∈ (get_mill_status [] mills5).availableMills
    ∧ "Ball Mill 1" ∉ (get_mill_status [] mills5).openMills
    ∧ List.lookup "Ball Mill 1" (get_mill_status [] mills5).millContents = none :=
  millNoRowsAvailable [] mills5 "Ball Mill 1" (by decide) rfl

/-- C3: every (item, value) pair reported by the closing stock is the sum
of the quantities of exactly the rows of that item dated on or before the
as-of date, and a row dated strictly after the as-of date contributes to no
item's reported stock. -/
theorem closingStockSumsDateFiltered (df : List Row) (asOf : Nat) :
    (∀ item v, (item, v) ∈ closing_stock df asOf →
      v = ((df.filter (fun r => r.itemName == item && decide (r.date ≤ asOf))).map
            Row.quantity).sum)
    ∧ (∀ r, asOf < r.date →
        closing_stock (df ++ [r]) asOf = closing_stock df asOf) := by
  constructor
  · intro item v hmem
    simp only [closing_stock, List.mem_map] at hmem
    rcases hmem with ⟨i, hi, hpair⟩
    cases hpair
    rw [List.filter_filter]
  · intro r hr
    have hfalse : decide (r.date ≤ asOf) = false := by
      simp [Nat.not_le.mpr hr]
    have hsame : (df ++ [r]).filter (fun x => decide (x.date ≤ asOf))
        = df.filter (fun x => decide (x.date ≤ asOf)) := by
      rw [List.filter_append]
      simp [List.filter_cons, hfalse]
    simp only [closing_stock, hsame]

/-- C3 witness: a single purchase of 100 of Urea dated day 1 is reported as
sum 100 at as-of day 5, and appending a purchase dated day 9 does not
change the day-5 closing stock. -/
theorem closingStockSumsDateFiltered_witness :
    ((100 : Int) = ((([purchaseFx] : List Row).filter
        (fun r => r.itemName == "Urea" && decide (r.date ≤ 5))).map
          Row.quantity).sum)
    ∧ closing_stock ([purchaseFx] ++ [lateRowFx]) 5 = closing_stock [purchaseFx] 5 :=
  ⟨(closingStockSumsDateFiltered [purchaseFx] 5).1 "Urea" 100 (by decide),
   (closingStockSumsDateFiltered [purchaseFx] 5).2 lateRowFx (by decide)⟩

/-- C4: the identifier generator always emits the marker, a dash, and the
matching-identifier count plus one rendered with %03d; in particular with
no matching identifier it emits marker-001, with n matching identifiers it
emits the padded n + 1, and appending rows that include a matching
identifier strictly increases the next sequence number. -/
theorem nextIdCountBased (ids : List String) (p : String) :
    get_next_id ids p = p ++ "-" ++ get_next_id.pad3 (nextSeqNum ids p)
    ∧ ((∀ s ∈ ids, strStarts s p = false) → get_next_id ids p = p ++ "-001")
    ∧ (∀ n, (ids.filter (fun s => strStarts s p)).length = n → 0 < n →
        get_next_id ids p = p ++ "-" ++ get_next_id.pad3 (n + 1))
    ∧ (∀ extra, (∃ s ∈ extra, strStarts s p = true) →
        nextSeqNum ids p < nextSeqNum (ids ++ extra) p) := by
  refine ⟨?_, ?_, ?_, ?_⟩
  · simp only [get_next_id, nextSeqNum]
    by_cases he : (ids.filter (fun s => strStarts s p)).isEmpty = true
    · rw [if_pos he]
      have h0 : (ids.filter (fun s => strStarts s p)).length = 0 := by
        rw [List.isEmpty_iff.mp he]
        rfl
      rw [h0, String.append_assoc]
      have hp : get_next_id.pad3 (0 + 1) = "001" := by decide
      rw [hp]
      have hd : ("-" ++ "001" : String) = "-001" := by decide
      rw [hd]
    · rw [if_neg he]
  · intro hall
    have hnil : ids.filter (fun s => strStarts s p) = [] :=
      List.filter_eq_nil_iff.mpr (fun s hs => by simp [hall s hs])
    simp [get_next_id, hnil]
  · intro n hn hpos
    have hne2 : ids.filter (fun s => strStarts s p) ≠ [] := by
      intro hc
      rw [hc] at hn
      simp at hn
      omega
    have hne : (ids.filter (fun s => strStarts s p)).isEmpty = false :=
      List.isEmpty_eq_false.mpr hne2
    simp only [get_next_id, hne, hn]
    simp
  · intro extra hex
    rcases hex with ⟨s, hs, hstart⟩
    rw [nextSeqNum, nextSeqNum, List.filter_append, List.length_append]
    have hpos : 0 < (extra.filter (fun t => strStarts t p)).length :=
      List.length_pos.mpr (List.ne_nil_of_mem (List.mem_filter.mpr ⟨hs, hstart⟩))
    omega

/-- C4 witness: with two PUR identifiers present the generator emits the
padded sequence number 3, and appending the generated identifier strictly
increases the next sequence number. -/
theorem nextIdCountBased_witness :
    get_next_id ["PUR-001", "PUR-002"] "PUR"
        = "PUR" ++ "-" ++ get_next_id.pad3 (2 + 1)
    ∧ nextSeqNum ["PUR-001", "PUR-002"] "PUR" <
        nextSeqNum (["PUR-001", "PUR-002"] ++ ["PUR-003"]) "PUR" :=
  ⟨(nextIdCountBased ["PUR-001", "PUR-002"] "PUR").2.2.1 2 (by decide) (by decide),
   (nextIdCountBased ["PUR-001", "PUR-002"] "PUR").2.2.2 ["PUR-003"]
     ⟨"PUR-003", by decide, by decide⟩⟩

/-- C5, amended: the row seeded for a new Material or Grade master entry
with positive opening quantity carries the literal transaction type
"Opening Stock" (with a space, deviating from the underscore vocabulary),
the positive opening quantity, and unit Bags for Grade, Kg for Material;
no row is seeded when the opening quantity is 0. -/
theorem openingStockSeeding (masters : List (String × String)) (df : List Row)
    (mtype mname : String) (q : Int) (today : Nat)
    (ht : mtype = "Material" ∨ mtype = "Grade")
    (hname : mname ≠ "")
    (hdup : mname ∉ masterNames masters mtype) :
    (0 < q → ∃ r, addMaster masters df mtype mname q today =
        some (masters ++ [(mtype, mname)], df ++ [r])
      ∧ r.ttype = "Opening Stock"
      ∧ r.quantity = q
      ∧ r.unit = (if mtype = "Grade" then "Bags" else "Kg"))
    ∧ (q = 0 → addMaster masters df mtype mname q today =
        some (masters ++ [(mtype, mname)], df)) := by
  have hor : (mtype == "Material" || mtype == "Grade") = true := by
    rcases ht with h | h <;> rw [h] <;> decide
  have hcond : (mname != "" && !(masterNames masters mtype).contains mname)
      = true := by
    rw [Bool.and_eq_true]
    exact ⟨bne_iff_ne.mpr hname,
      (Bool.not_eq_true' _) ▸ (contains_eq_false_iff _ _).mpr hdup⟩
  constructor
  · intro hq
    refine ⟨openingRow df mtype mname q today, ?_, rfl, rfl, ?_⟩
    · simp only [addMaster, hor, if_true, if_pos hcond, hq, ite_true]
    · rcases ht with h | h <;> subst h <;> rfl
  · intro hq
    subst hq
    simp only [addMaster, hor, if_true, if_pos hcond]
    norm_num

/-- C5 counterexample: adding the Material Urea with opening quantity 100
appends exactly one row, and its transaction type is the string
"Opening Stock", not the vocabulary member "Opening_Stock". -/
theorem openingStockTypeClaimFalse :
    (addMaster [] [] "Material" "Urea" 100 0).map (fun res => res.2.map Row.ttype)
      = some ["Opening Stock"]
    ∧ ("Opening Stock" : String) ≠ "Opening_Stock" := by
  decide

/-- C5 witness: adding the Grade G1 with opening quantity 5 appends one
"Opening Stock" row of quantity 5 and unit Bags. -/
theorem openingStockSeeding_witness :
    ((0 : Int) < 5 → ∃ r, addMaster [] [] "Grade" "G1" 5 3 =
        some ([] ++ [("Grade", "G1")], [] ++ [r])
      ∧ r.ttype = "Opening Stock"
      ∧ r.quantity = 5
      ∧ r.unit = (if ("Grade" : String) = "Grade" then "Bags" else "Kg"))
    ∧ ((5 : Int) = 0 → addMaster [] [] "Grade" "G1" 5 3 =
        some ([] ++ [("Grade", "G1")], [])) :=
  openingStockSeeding [] [] "Grade" "G1" 5 3 (Or.inr rfl) (by decide) (by decide)

/-- C6: saving a batch entry with a positive produced count appends one
negative Batch_Consumption row per input line with positive quantity (zero
or absent quantities are skipped) followed by one positive
Batch_Production row for UF Lumps (Batches), all tagged with the batch
identifier; a non-positive produced count appends nothing. -/
theorem batchEntryRows (d : Nat) (bid : String) (inputs : List (String × Int))
    (made : Int) :
    (0 < made → ∃ cons pr,
      saveBatch d bid inputs made = cons ++ [pr]
      ∧ cons.map (fun r => (r.itemName, -r.quantity)) =
          inputs.filter (fun q => decide (0 < q.2))
      ∧ (∀ r ∈ cons, r.ttype = "Batch_Consumption" ∧ r.quantity < 0
          ∧ r.batchId = bid)
      ∧ pr.ttype = "Batch_Production" ∧ pr.itemName = "UF Lumps (Batches)"
      ∧ pr.quantity = made ∧ 0 < pr.quantity ∧ pr.batchId = bid)
    ∧ (made ≤ 0 → saveBatch d bid inputs made = []) := by
  constructor
  · intro hmade
    refine ⟨(withIdx 0 inputs).filterMap (fun q =>
        if q.2.2 > 0 then some (batchConsRow d bid q.1 q.2.1 q.2.2) else none),
      batchProdRow d bid made, ?_, batch_rows_map d bid inputs 0,
      batch_rows_props d bid inputs 0, rfl, rfl, rfl, hmade, rfl⟩
    rw [saveBatch, if_pos hmade]
  · intro hle
    rw [saveBatch, if_neg (by omega)]

/-- C6 witness: two input lines of which one has quantity zero and a
produced count of 2 give one consumption row and the production row; a
produced count of 0 gives nothing. -/
theorem batchEntryRows_witness :
    (∃ cons pr,
      saveBatch 5 "BAT-001" [("Urea", 10), ("Formalin", 0)] 2 = cons ++ [pr]
      ∧ cons.map (fun r => (r.itemName, -r.quantity)) =
          ([("Urea", 10), ("Formalin", 0)] : List (String × Int)).filter
            (fun q => decide (0 < q.2))
      ∧ (∀ r ∈ cons, r.ttype = "Batch_Consumption" ∧ r.quantity < 0
          ∧ r.batchId = "BAT-001")
      ∧ pr.ttype = "Batch_Production" ∧ pr.itemName = "UF Lumps (Batches)"
      ∧ pr.quantity = 2 ∧ 0 < pr.quantity ∧ pr.batchId = "BAT-001")
    ∧ saveBatch 5 "BAT-001" [("Urea", 10)] 0 = [] :=
  ⟨(batchEntryRows 5 "BAT-001" [("Urea", 10), ("Formalin", 0)] 2).1 (by decide),
   (batchEntryRows 5 "BAT-001" [("Urea", 10)] 0).2 (by decide)⟩

/-- C7: replacing an edited subset overwrites, position by position, the
fields of every ledger row whose identifier appears in the subset and
leaves every other row unchanged and present; the ledger keeps its
length. -/
theorem replaceSubsetFrame (df edited : List Row) :
    (update_database_from_editor df edited).length = df.length
    ∧ (∀ (i : Nat) (r : Row), df[i]? = some r → (∀ s ∈ edited, s.id ≠ r.id) →
        (update_database_from_editor df edited)[i]? = some r)
    ∧ (∀ (i : Nat) (r s : Row), df[i]? = some r →
        edited.find? (fun x => x.id == r.id) = some s →
        (update_database_from_editor df edited)[i]? =
          some { s with id := r.id }) := by
  refine ⟨by simp [update_database_from_editor], ?_, ?_⟩
  · intro i r hget hnone
    have hf : edited.find? (fun s => s.id == r.id) = none :=
      List.find?_eq_none.mpr (fun x hx => by
        simpa [beq_iff_eq] using hnone x hx)
    rw [update_database_from_editor, List.getElem?_map, hget]
    simp [hf]
  · intro i r s hget hfind
    rw [update_database_from_editor, List.getElem?_map, hget]
    simp [hfind]

/-- C7 witness: editing the purchase row by identifier overwrites its
fields while the sales row at the other position is untouched. -/
theorem replaceSubsetFrame_witness :
    ((update_database_from_editor [purchaseFx, salesFx] [editedFx])[1]?
        = some salesFx)
    ∧ ((update_database_from_editor [purchaseFx, salesFx] [editedFx])[0]?
        = some { editedFx with id := purchaseFx.id }) :=
  ⟨(replaceSubsetFrame [purchaseFx, salesFx] [editedFx]).2.1 1 salesFx rfl
      (by decide),
   (replaceSubsetFrame [purchaseFx, salesFx] [editedFx]).2.2 0 purchaseFx
      editedFx rfl (by decide)⟩

/-- Membership of the contains test, stated on the true side. -/
theorem contains_eq_true_iff (l : List String) (a : String) :
    l.contains a = true ↔ a ∈ l := by
  simp [List.elem_iff]

/-- The Add form of the Master Data screen fails (Duplicate Name error, no
mutation) exactly when the entered name is empty or already present, by
exact case-sensitive match, in its category. -/
theorem addMaster_eq_none_iff (masters : List (String × String)) (df : List Row)
    (mtype mname : String) (q : Int) (today : Nat) :
    addMaster masters df mtype mname q today = none ↔
      (mname = "" ∨ mname ∈ masterNames masters mtype) := by
  constructor
  · intro h
    by_contra hcon
    push_neg at hcon
    obtain ⟨hne, hnin⟩ := hcon
    have hc : (mname != "" && !(masterNames masters mtype).contains mname)
        = true := by
      rw [Bool.and_eq_true]
      exact ⟨bne_iff_ne.mpr hne,
        (Bool.not_eq_true' _) ▸ (contains_eq_false_iff _ _).mpr hnin⟩
    simp only [addMaster] at h
    rw [if_pos hc] at h
    simp at h
  · intro h
    have hc : (mname != "" && !(masterNames masters mtype).contains mname)
        = false := by
      rcases h with h | h
      · subst h
        rfl
      · have hm : (masterNames masters mtype).contains mname = true :=
          (contains_eq_true_iff _ _).mpr h
        rw [hm]
        simp
    simp [addMaster, hc]
    intro hne2
    rcases h with h | h
    · exact absurd h hne2
    · exact h

/-- C8, amended: adding a master entry fails with the Duplicate Name error
and leaves the registry unmutated exactly when the name is empty or a name
equal by exact case-sensitive match already exists in that category;
adding the same category and nonempty name twice succeeds the first time,
fails the second time, and leaves exactly one such entry in the
registry. -/
theorem masterDuplicateRejection (masters : List (String × String))
    (df : List Row) (mtype mname : String) (q : Int) (today : Nat) :
    (addMaster masters df mtype mname q today = none ↔
      (mname = "" ∨ mname ∈ masterNames masters mtype))
    ∧ (mname ≠ "" → mname ∉ masterNames masters mtype →
        Option.map Prod.fst (addMaster masters df mtype mname q today)
            = some (masters ++ [(mtype, mname)])
        ∧ (∀ (q2 : Int) (df3 : List Row) (today2 : Nat),
            addMaster (masters ++ [(mtype, mname)]) df3 mtype mname q2 today2
              = none)
        ∧ ((masters ++ [(mtype, mname)]).filter
            (fun pr => pr.1 == mtype && pr.2 == mname)).length = 1) := by
  refine ⟨addMaster_eq_none_iff masters df mtype mname q today, ?_⟩
  intro hne hnin
  have hc : (mname != "" && !(masterNames masters mtype).contains mname)
      = true := by
    rw [Bool.and_eq_true]
    exact ⟨bne_iff_ne.mpr hne,
      (Bool.not_eq_true' _) ▸ (contains_eq_false_iff _ _).mpr hnin⟩
  refine ⟨?_, ?_, ?_⟩
  · simp [addMaster, hc]
    exact ⟨hne, hnin⟩
  · intro q2 df3 today2
    refine (addMaster_eq_none_iff _ _ _ _ _ _).mpr (Or.inr ?_)
    rw [masterNames]
    refine List.mem_map.mpr ⟨(mtype, mname), ?_, rfl⟩
    refine List.mem_filter.mpr ⟨List.mem_append_right _ ?_, ?_⟩
    · exact List.mem_singleton_self _
    · exact beq_self_eq_true mtype
  · have hzero : masters.filter (fun pr => pr.1 == mtype && pr.2 == mname)
        = [] := by
      refine List.filter_eq_nil_iff.mpr (fun a ha hcontra => ?_)
      rw [Bool.and_eq_true, beq_iff_eq, beq_iff_eq] at hcontra
      refine hnin ?_
      rw [masterNames]
      refine List.mem_map.mpr ⟨a, List.mem_filter.mpr ⟨ha, ?_⟩, hcontra.2⟩
      rw [hcontra.1]
      exact beq_self_eq_true _
    rw [List.filter_append, hzero]
    simp

/-- C8 counterexample: adding the empty name to the empty registry fails
with the Duplicate Name error although no equal name exists in the
category, refuting the exactly-when of the claim. -/
theorem masterDuplicateRejectionClaimFalse :
    addMaster [] [] "Material" "" 0 0 = none
    ∧ "" ∉ masterNames [] "Material" := by
  decide

/-- C8 witness: adding ("Material", "Urea") to the empty registry succeeds,
a second add of the same pair fails, and the registry holds exactly one
such entry. -/
theorem masterDuplicateRejection_witness :
    (addMaster [] [] "Material" "Urea" 0 0 = none ↔
      (("Urea" : String) = "" ∨ "Urea" ∈ masterNames [] "Material"))
    ∧ (Option.map Prod.fst (addMaster [] [] "Material" "Urea" 0 0)
          = some ([] ++ [("Material", "Urea")])
        ∧ (∀ (q2 : Int) (df3 : List Row) (today2 : Nat),
            addMaster ([] ++ [("Material", "Urea")]) df3 "Material" "Urea"
              q2 today2 = none)
        ∧ ((([] : List (String × String)) ++ [("Material", "Urea")]).filter
            (fun pr => pr.1 == "Material" && pr.2 == "Urea")).length = 1) :=
  have h := masterDuplicateRejection [] [] "Material" "Urea" 0 0
  ⟨h.1, h.2 (by decide) (by decide)⟩

/-- C9: a ledger whose only rows for an item are a purchase of quantity Q
(stored positive) and a sale of quantity Q (stored negative) reports
closing stock 0 for that item at any as-of date on or after both rows. -/
theorem balancedPurchaseSaleZero (df : List Row) (item : String) (Q : Int)
    (d1 d2 asOf : Nat) (id1 id2 sup cust u1 u2 nts : String)
    (hrows : df.filter (fun r => r.itemName == item) =
      [purchaseRow d1 id1 sup item Q u1 nts, salesRow d2 id2 cust item Q u2])
    (h1 : d1 ≤ asOf) (h2 : d2 ≤ asOf) :
    List.lookup item (closing_stock df asOf) = some 0 := by
  have hcomm : (df.filter (fun r => decide (r.date ≤ asOf))).filter
        (fun r => r.itemName == item)
      = (df.filter (fun r => r.itemName == item)).filter
        (fun r => decide (r.date ≤ asOf)) := by
    rw [List.filter_filter, List.filter_filter]
    exact List.filter_congr (fun a _ => Bool.and_comm _ _)
  have hfinal : (df.filter (fun r => r.itemName == item)).filter
        (fun r => decide (r.date ≤ asOf))
      = [purchaseRow d1 id1 sup item Q u1 nts, salesRow d2 id2 cust item Q u2] := by
    rw [hrows]
    simp [purchaseRow, salesRow, h1, h2]
  have hpfil : purchaseRow d1 id1 sup item Q u1 nts
      ∈ df.filter (fun r => decide (r.date ≤ asOf)) := by
    refine List.mem_filter.mpr ⟨?_, by simp [purchaseRow, h1]⟩
    have hp : purchaseRow d1 id1 sup item Q u1 nts
        ∈ df.filter (fun r => r.itemName == item) := by
      rw [hrows]
      exact List.mem_cons_self _ _
    exact (List.mem_filter.mp hp).1
  have hitem : item ∈ ((df.filter (fun r => decide (r.date ≤ asOf))).map
      Row.itemName).dedup := by
    rw [List.mem_dedup]
    exact List.mem_map.mpr ⟨purchaseRow d1 id1 sup item Q u1 nts, hpfil, rfl⟩
  simp only [closing_stock]
  rw [lookup_keyed_map _ _ _ hitem, hcomm, hfinal]
  simp [purchaseRow, salesRow]

/-- C9 witness: a purchase of 100 Urea on day 1 and a sale of 100 Urea on
day 2 give closing stock 0 for Urea at as-of day 5. -/
theorem balancedPurchaseSaleZero_witness :
    List.lookup "Urea" (closing_stock [purchaseFx, salesFx] 5) = some 0 :=
  balancedPurchaseSaleZero [purchaseFx, salesFx] "Urea" 100 1 2 5 "PUR-001"
    "SAL-001" "Acme" "Best Co" "Kg" "Kg" "" (by decide) (by decide) (by decide)

end Inventory
